import Mathlib

/-!
Verification development for the xlsx-tool core: a shallow embedding of the
rule engine (`src/core/rule_engine.py`) and the comparison engine
(`src/core/comparator.py`, `src/core/comparison_service.py`), with theorems
settling the specification claims.

Modelling conventions:
* Python floats are modelled as `Rat`, extended with the IEEE special values
  `inf`, `-inf`, `nan` where the code can produce them (`PyNum`); rounding of
  float arithmetic is not modelled.
* A spreadsheet cell is `Cell`: absent/NaN (`empty`), a number, or text.
  `None` (a coordinate beyond a grid's extent) and float NaN both satisfy
  `pd.isna` and flow through the same branches of the compared code, so both
  are modelled as `Cell.empty`.
* Python's `str.isalpha` / `str.isdigit` / `str.isspace` / `str.upper` /
  `str.lower` are modelled on the ASCII range, which is all the DSL grammar
  (`[A-Za-z]+(\d+)?`) admits.
* Exceptions are modelled as `Except Err` values; each distinct raise site of
  the source has its own `Err` constructor.
-/

/-- Cell content: absent/NaN, a number (Python float/int, modelled as `Rat`),
or a text value. -/
inductive Cell where
  | empty : Cell
  | num : Rat → Cell
  | text : String → Cell
deriving DecidableEq

/-- `pd.isna` on a cell value (both `None` and float NaN are `empty`). -/
def Cell.isNA : Cell → Bool
  | .empty => true
  | _ => false

/-- Models Python `str.isspace` on the ASCII whitespace characters. -/
def pyIsSpace (c : Char) : Bool :=
  decide (c.toNat = 32 ∨ c.toNat = 9 ∨ c.toNat = 10 ∨ c.toNat = 13)

/-- Models Python `str.isdigit` on ASCII: the characters 0-9. -/
def pyIsDigit (c : Char) : Bool :=
  decide (48 ≤ c.toNat ∧ c.toNat ≤ 57)

/-- Models Python `str.isalpha` on ASCII: the characters A-Z and a-z. -/
def pyIsAlpha (c : Char) : Bool :=
  decide ((65 ≤ c.toNat ∧ c.toNat ≤ 90) ∨ (97 ≤ c.toNat ∧ c.toNat ≤ 122))

/-- Python `str.isalpha() or str.isdigit()`, as used by the tokenizer. -/
def pyIsAlnum (c : Char) : Bool :=
  pyIsAlpha c || pyIsDigit c

/-- Models Python `str.upper` on one ASCII character: a-z map to A-Z,
everything else is unchanged. -/
def pyUpperChar (c : Char) : Char :=
  if 97 ≤ c.toNat ∧ c.toNat ≤ 122 then Char.ofNat (c.toNat - 32) else c

/-- Models Python `str.lower` on one ASCII character: A-Z map to a-z,
everything else is unchanged. -/
def pyLowerChar (c : Char) : Char :=
  if 65 ≤ c.toNat ∧ c.toNat ≤ 90 then Char.ofNat (c.toNat + 32) else c

/-- Models Python `str.lower` on a whole string. -/
def pyLowerStr (s : String) : String :=
  String.mk (s.toList.map pyLowerChar)

/-- Decimal digits accumulated left to right, as Python `int()` computes. -/
def digitsToNat (ds : List Char) : Nat :=
  ds.foldl (fun a c => 10 * a + (c.toNat - 48)) 0

/-- The base-26 loop shared by `RuleEngine.get_cell_value` and
`ExcelComparator.col_letters_to_index`:
`idx = idx * 26 + (ord(ch.upper()) - ord('A') + 1)` over the letters,
then minus one. -/
def lettersToIdx (ls : List Char) : Nat :=
  (ls.foldl (fun a c => a * 26 + ((pyUpperChar c).toNat - 65 + 1)) 0) - 1

/-- `ExcelComparator.col_letters_to_index` (`src/core/comparator.py`):
uppercases and folds base-26, so A = 0, B = 1, AA = 26. -/
def colLettersToIndex (s : String) : Nat :=
  lettersToIdx s.toList

/-- Decimal rendering of a natural number (fuelled; fuel `n + 1` always
suffices since `n / 10 < n` for `n ≥ 10`). -/
def natDigitsAux : Nat → Nat → List Char
  | 0, _ => []
  | fuel + 1, n =>
    if n < 10 then [Char.ofNat (48 + n)]
    else natDigitsAux fuel (n / 10) ++ [Char.ofNat (48 + n % 10)]

/-- Decimal rendering of a natural number. -/
def natStr (n : Nat) : String :=
  String.mk (natDigitsAux (n + 1) n)

/-- Decimal rendering of an integer. -/
def intStr : Int → String
  | .ofNat n => natStr n
  | .negSucc n => String.mk ('-' :: (natStr (n + 1)).toList)

/-- Stand-in for Python `str()` of a numeric cell value.  The comparison
engine only ever tests the rendered strings for equality, and the claims at
hand depend only on the rendering of a number never being the empty string,
which this rendering shares with Python's. -/
def ratStr (q : Rat) : String :=
  if q.den = 1 then intStr q.num
  else String.mk ((intStr q.num).toList ++ '/' :: (natStr q.den).toList)

/-- Python `str()` of a present (non-NA) cell value. -/
def pyStr : Cell → String
  | .empty => ""
  | .num q => ratStr q
  | .text s => s

/-- Models Python `float()` on the plain decimal subset: optional surrounding
whitespace, an optional sign, then digits with at most one decimal point.
(Scientific notation, `inf`/`nan` words and underscores are not modelled.)
Returns `none` where `float()` raises `ValueError`. -/
def parseNumRun (cs : List Char) : Option Rat :=
  let ip := cs.takeWhile pyIsDigit
  let rest := cs.dropWhile pyIsDigit
  match rest with
  | [] => if ip.isEmpty then none else some (digitsToNat ip)
  | '.' :: frac =>
    if frac.all pyIsDigit then
      if ip.isEmpty ∧ frac.isEmpty then none
      else some ((digitsToNat ip : Rat) + (digitsToNat frac : Rat) / (10 ^ frac.length))
    else none
  | _ => none

/-- Strips ASCII whitespace from both ends, as Python `str.strip`. -/
def pyStrip (cs : List Char) : List Char :=
  ((cs.dropWhile pyIsSpace).reverse.dropWhile pyIsSpace).reverse

/-- Models Python `float(s)` on a string. -/
def pyFloat? (s : String) : Option Rat :=
  match pyStrip s.toList with
  | '-' :: rest => (parseNumRun rest).map Neg.neg
  | '+' :: rest => parseNumRun rest
  | cs => parseNumRun cs

/-- Numeric coercion of a cell applied by `RuleEngine.get_cell_value`:
absent/NaN resolves to 0, numbers pass through as floats, text is parsed
with `float()` and falls back to 0 on failure.  The whole-column path uses
`pd.to_numeric(errors='coerce').fillna(0)`, which applies the same mapping. -/
def cellToFloat : Cell → Rat
  | .empty => 0
  | .num q => q
  | .text s => (pyFloat? s).getD 0

/-- A loaded dataset: a rectangular grid addressed by 0-based (row, column),
with its shape.  Reads outside the shape never occur in the modelled code
except through `cellAt`. -/
structure DF where
  nrows : Nat
  ncols : Nat
  cell : Nat → Nat → Cell

/-- The value `compare_direct` reads at a coordinate: the stored cell when in
bounds, `None` (modelled as `empty`) beyond the grid's extent. -/
def cellAt (df : DF) (r c : Nat) : Cell :=
  if r < df.nrows ∧ c < df.ncols then df.cell r c else .empty

/-- Per-cell comparison status of the comparison engine. -/
inductive Status where
  | equal : Status
  | diff : Status
  | empty : Status
deriving DecidableEq

/-- The per-cell body of `ExcelComparator.compare_direct`
(`src/core/comparator.py` lines 229-270), returning (status, display value).
Structure mirrored from the source: the status starts as `'empty'`, both-NA
yields `'equal'`, otherwise the numeric branch runs when both values are
numbers and the string branch otherwise (an absent value stringifies to "").
The source's per-cell `except` arm (which forces `'diff'`) is unreachable in
the model because every operation here is total. -/
def compareCell (tol : Rat) (ignoreCase : Bool) (v1 v2 : Cell) : Status × Cell :=
  let display := if !v1.isNA then v1 else v2
  if v1.isNA && v2.isNA then (.equal, display)
  else
    match v1, v2 with
    | .num a, .num b => (if |a - b| ≤ tol then .equal else .diff, display)
    | _, _ =>
      let s1 := if v1.isNA then "" else pyStr v1
      let s2 := if v2.isNA then "" else pyStr v2
      let t1 := if ignoreCase then pyLowerStr s1 else s1
      let t2 := if ignoreCase then pyLowerStr s2 else s2
      (if t1 = t2 then .equal else .diff, display)

/-- Result of a direct comparison: the union shape, the display grid and the
status map.  The Python code materialises `result_map` as a dict whose keys
are exactly the coordinates with `r < nrows` and `c < ncols`; here the map is
a function together with those explicit bounds. -/
structure CmpResult where
  nrows : Nat
  ncols : Nat
  display : Nat → Nat → Cell
  statusMap : Nat → Nat → Status

/-- `ExcelComparator.compare_direct` (`src/core/comparator.py` lines 166-277):
walks every coordinate of the union shape, reading each grid through
`cellAt` (out-of-extent reads give `None`), and classifies each cell with
`compareCell`. -/
def compareDirect (df1 df2 : DF) (tol : Rat) (ignoreCase : Bool) : CmpResult where
  nrows := max df1.nrows df2.nrows
  ncols := max df1.ncols df2.ncols
  display := fun r c => (compareCell tol ignoreCase (cellAt df1 r c) (cellAt df2 r c)).2
  statusMap := fun r c => (compareCell tol ignoreCase (cellAt df1 r c) (cellAt df2 r c)).1

/-- The loop body of `ComparisonService._col_index_to_letter`
(`src/core/comparison_service.py` lines 406-423): repeatedly `divmod` by 26,
prepending `chr(rem + ord('A'))`, and decrementing; the loop ends when the
running index would drop below zero, i.e. when the quotient is zero. -/
def colIndexToLetterAux (n : Nat) : List Char :=
  let r := n % 26
  let q := n / 26
  if q = 0 then [Char.ofNat (r + 65)]
  else colIndexToLetterAux (q - 1) ++ [Char.ofNat (r + 65)]
termination_by n
decreasing_by
  have h26 : n / 26 < n ∨ n = 0 := by
    rcases Nat.eq_zero_or_pos n with h | h
    · right; exact h
    · left; exact Nat.div_lt_self h (by omega)
  omega

/-- `ComparisonService._col_index_to_letter`: 0 → A, 25 → Z, 26 → AA. -/
def colIndexToLetter (n : Nat) : String :=
  String.mk (colIndexToLetterAux n)

/-- Decidable equality of `Except` results, for evaluating the embedding at
concrete inputs. -/
instance exceptDecidableEq {ε α : Type} [DecidableEq ε] [DecidableEq α] :
    DecidableEq (Except ε α) := fun x y =>
  match x, y with
  | .ok a, .ok b =>
    if h : a = b then .isTrue (by rw [h]) else .isFalse (by simp [h])
  | .error a, .error b =>
    if h : a = b then .isTrue (by rw [h]) else .isFalse (by simp [h])
  | .ok _, .error _ => .isFalse (by simp)
  | .error _, .ok _ => .isFalse (by simp)

/-- Python float values flowing through the evaluator: a finite number, the
two infinities, or NaN.  `float('inf')` is the division-by-zero sentinel of
the operator table. -/
inductive PyNum where
  | num : Rat → PyNum
  | inf : PyNum
  | ninf : PyNum
  | nan : PyNum
deriving DecidableEq

/-- Python `==` on floats (`nan` compares unequal to everything). -/
def pyEqB : PyNum → PyNum → Bool
  | .num a, .num b => a = b
  | .inf, .inf => true
  | .ninf, .ninf => true
  | _, _ => false

/-- Python `!=` on floats. -/
def pyNeB (a b : PyNum) : Bool := !pyEqB a b

/-- Python `<` on floats (false whenever either side is `nan`). -/
def pyLtB : PyNum → PyNum → Bool
  | .nan, _ => false
  | _, .nan => false
  | .num a, .num b => a < b
  | .num _, .inf => true
  | .num _, .ninf => false
  | .inf, _ => false
  | .ninf, .ninf => false
  | .ninf, _ => true

/-- Python `<=` on floats (false whenever either side is `nan`). -/
def pyLeB (a b : PyNum) : Bool := pyLtB a b || pyEqB a b

/-- Python `+` on floats. -/
def pyAdd : PyNum → PyNum → PyNum
  | .nan, _ => .nan
  | _, .nan => .nan
  | .num a, .num b => .num (a + b)
  | .num _, .inf => .inf
  | .num _, .ninf => .ninf
  | .inf, .ninf => .nan
  | .inf, _ => .inf
  | .ninf, .inf => .nan
  | .ninf, _ => .ninf

/-- Python `-` on floats. -/
def pySub : PyNum → PyNum → PyNum
  | .nan, _ => .nan
  | _, .nan => .nan
  | .num a, .num b => .num (a - b)
  | .num _, .inf => .ninf
  | .num _, .ninf => .inf
  | .inf, .inf => .nan
  | .inf, _ => .inf
  | .ninf, .ninf => .nan
  | .ninf, _ => .ninf

/-- Python `*` on floats (`0 * inf` is `nan`). -/
def pyMul : PyNum → PyNum → PyNum
  | .nan, _ => .nan
  | _, .nan => .nan
  | .num a, .num b => .num (a * b)
  | .num a, .inf => if a = 0 then .nan else if 0 < a then .inf else .ninf
  | .num a, .ninf => if a = 0 then .nan else if 0 < a then .ninf else .inf
  | .inf, .num b => if b = 0 then .nan else if 0 < b then .inf else .ninf
  | .ninf, .num b => if b = 0 then .nan else if 0 < b then .ninf else .inf
  | .inf, .inf => .inf
  | .inf, .ninf => .ninf
  | .ninf, .inf => .ninf
  | .ninf, .ninf => .inf

/-- The division entry of the `RuleEngine` operator table
(`src/core/rule_engine.py` line 34): `a / b if b != 0 else float('inf')`.
Total: division by zero returns the `inf` sentinel instead of raising. -/
def opDiv (a b : PyNum) : PyNum :=
  if pyNeB b (.num 0) then
    match a, b with
    | .nan, _ => .nan
    | _, .nan => .nan
    | .num x, .num y => .num (x / y)
    | .num _, .inf => .num 0
    | .num _, .ninf => .num 0
    | .inf, .num y => if 0 < y then .inf else .ninf
    | .ninf, .num y => if 0 < y then .ninf else .inf
    | .inf, .inf => .nan
    | .inf, .ninf => .nan
    | .ninf, _ => .nan
  else .inf

/-- Python float `%` with both operands finite: `a - b * floor(a / b)`. -/
def pyModRat (a b : Rat) : Rat :=
  a - b * ⌊a / b⌋

/-- The modulo entry of the `RuleEngine` operator table
(`src/core/rule_engine.py` line 35): `a % b if b != 0 else 0`.
Total: modulo by zero returns 0 instead of raising. -/
def opMod (a b : PyNum) : PyNum :=
  if pyNeB b (.num 0) then
    match a, b with
    | .nan, _ => .nan
    | _, .nan => .nan
    | .num x, .num y => .num (pyModRat x y)
    | .num x, .inf => if 0 ≤ x then .num x else .inf
    | .num x, .ninf => if x ≤ 0 then .num x else .ninf
    | .inf, _ => .nan
    | .ninf, _ => .nan
  else .num 0

/-- The eleven operators of the `RuleEngine.operators` table. -/
inductive BinOp where
  | eq | ne | lt | le | gt | ge | add | sub | mul | div | mod
deriving DecidableEq

/-- Operator precedence from the table: comparisons 1, `+`/`-` 2,
`*`/`/`/`%` 3. -/
def BinOp.prec : BinOp → Nat
  | .eq | .ne | .lt | .le | .gt | .ge => 1
  | .add | .sub => 2
  | .mul | .div | .mod => 3

/-- A Python boolean result coerced to a number (`True` behaves as 1 and
`False` as 0 in any later arithmetic or comparison the evaluator performs). -/
def boolNum (b : Bool) : PyNum :=
  .num (if b then 1 else 0)

/-- Applying one operator-table entry to two scalar operands.  The comparison
entries are the lambdas `a == b`, `a < b`, ... whose boolean results flow on
as numbers. -/
def applyOp : BinOp → PyNum → PyNum → PyNum
  | .eq, a, b => boolNum (pyEqB a b)
  | .ne, a, b => boolNum (pyNeB a b)
  | .lt, a, b => boolNum (pyLtB a b)
  | .le, a, b => boolNum (pyLeB a b)
  | .gt, a, b => boolNum (pyLtB b a)
  | .ge, a, b => boolNum (pyLeB b a)
  | .add, a, b => pyAdd a b
  | .sub, a, b => pySub a b
  | .mul, a, b => pyMul a b
  | .div, a, b => opDiv a b
  | .mod, a, b => opMod a b

/-- Tokens produced by the `parse_expression` scanner: numeric literals,
address tokens (kept as their raw text, including a `FILE1:`/`FILE2:`
prefix), operators and parentheses. -/
inductive Tok where
  | num : Rat → Tok
  | addr : String → Tok
  | op : BinOp → Tok
  | lpar : Tok
  | rpar : Tok
deriving DecidableEq

/-- Error conditions of the rule engine, one constructor per raise site. -/
inductive Err where
  | invalidChar : Char → Err
  | rangeNotSupported : String → Err
  | badNumLit : String → Err
  | mismatchedParens : Err
  | invalidExpr : Err
  | invalidRule : Err
  | colOutOfRange : String → Err
  | rowOutOfRange : String → Err
  | invalidRef : String → Err
  | needDf2 : Err
  | seriesShapeIndex : Err
deriving DecidableEq

/-- The single-character keys of the operator table (`'!'` alone is not a
key, which is why a bare `!` is an invalid character). -/
def singleOpChar : Char → Option BinOp
  | '=' => some .eq
  | '<' => some .lt
  | '>' => some .gt
  | '+' => some .add
  | '-' => some .sub
  | '*' => some .mul
  | '/' => some .div
  | '%' => some .mod
  | _ => none

/-- The characters after which a `-` is read as a unary minus:
`expr[i-1] in '+-*/%()'` (or whitespace, or start of string). -/
def unaryCtxChar (c : Char) : Bool :=
  pyIsSpace c || c = '+' || c = '-' || c = '*' || c = '/' || c = '%' || c = '(' || c = ')'

def file1Tag : List Char := ['F', 'I', 'L', 'E', '1', ':']

def file2Tag : List Char := ['F', 'I', 'L', 'E', '2', ':']

def tag1base : List Char := ['F', 'I', 'L', 'E', '1']

def tag2base : List Char := ['F', 'I', 'L', 'E', '2']

/-- Invariant carrier: every colon of a successfully tokenized input is
immediately preceded by the dataset tag `FILE1` or `FILE2`. -/
def colonTagged (u : List Char) : Prop :=
  tag1base <:+ u ∨ tag2base <:+ u

/-- The character-scanning loop of `RuleEngine.parse_expression`
(`src/core/rule_engine.py` lines 82-164).  `ctx` tracks whether a `-` at the
current position would be unary (true at the start of the expression, after
whitespace, or after a character of `'+-*/%()'` — each branch passes the
context its last consumed character induces).  The recursion is fuelled; each
step consumes at least one character, so fuel `length + 1` always suffices. -/
def tokenizeAux : Nat → List Char → Bool → Except Err (List Tok)
  | 0, _, _ => .error .invalidExpr
  | _ + 1, [], _ => .ok []
  | fuel + 1, c :: rest, ctx =>
    if pyIsSpace c then
      -- skip whitespace; the previous character is now a space
      tokenizeAux fuel rest true
    else if c = '-' && ctx then
      -- unary-minus position: folded into a literal when digits follow
      match rest with
      | d :: _ =>
        if pyIsDigit d || d = '.' then
          let run := rest.takeWhile (fun x => pyIsDigit x || x = '.')
          let rest2 := rest.dropWhile (fun x => pyIsDigit x || x = '.')
          match parseNumRun run with
          | some q => (tokenizeAux fuel rest2 false).map (Tok.num (-q) :: ·)
          | none => .error (.badNumLit (String.mk ('-' :: run)))
        else
          (tokenizeAux fuel rest true).map (Tok.op .sub :: ·)
      | [] => (tokenizeAux fuel [] true).map (Tok.op .sub :: ·)
    else if file1Tag.isPrefixOf (c :: rest) then
      let run := ((c :: rest).drop 6).takeWhile (fun x => pyIsAlnum x || x = ':')
      let rest2 := ((c :: rest).drop 6).dropWhile (fun x => pyIsAlnum x || x = ':')
      let tok := file1Tag ++ run
      if 1 < tok.count ':' then .error (.rangeNotSupported (String.mk tok))
      else (tokenizeAux fuel rest2 false).map (Tok.addr (String.mk tok) :: ·)
    else if file2Tag.isPrefixOf (c :: rest) then
      let run := ((c :: rest).drop 6).takeWhile (fun x => pyIsAlnum x || x = ':')
      let rest2 := ((c :: rest).drop 6).dropWhile (fun x => pyIsAlnum x || x = ':')
      let tok := file2Tag ++ run
      if 1 < tok.count ':' then .error (.rangeNotSupported (String.mk tok))
      else (tokenizeAux fuel rest2 false).map (Tok.addr (String.mk tok) :: ·)
    else if pyIsAlpha c then
      let run := (c :: rest).takeWhile pyIsAlnum
      let rest2 := (c :: rest).dropWhile pyIsAlnum
      (tokenizeAux fuel rest2 false).map (Tok.addr (String.mk run) :: ·)
    else if pyIsDigit c || c = '.' then
      let run := (c :: rest).takeWhile (fun x => pyIsDigit x || x = '.')
      let rest2 := (c :: rest).dropWhile (fun x => pyIsDigit x || x = '.')
      match parseNumRun run with
      | some q => (tokenizeAux fuel rest2 false).map (Tok.num q :: ·)
      | none => .error (.badNumLit (String.mk run))
    else
      match singleOpChar c with
      | some o =>
        -- two-character operators: only '<=' , '>=' extend a single key
        match c, rest with
        | '<', '=' :: rest2 => (tokenizeAux fuel rest2 false).map (Tok.op .le :: ·)
        | '>', '=' :: rest2 => (tokenizeAux fuel rest2 false).map (Tok.op .ge :: ·)
        | _, _ => (tokenizeAux fuel rest (unaryCtxChar c)).map (Tok.op o :: ·)
      | none =>
        if c = '(' then (tokenizeAux fuel rest true).map (Tok.lpar :: ·)
        else if c = ')' then (tokenizeAux fuel rest true).map (Tok.rpar :: ·)
        else .error (.invalidChar c)

/-- The tokenizer of `RuleEngine.parse_expression`. -/
def tokenize (s : String) : Except Err (List Tok) :=
  tokenizeAux (s.toList.length + 1) s.toList true

/-- Pops operators of greater-or-equal precedence off the shunting-yard stack
(`none` marks a left parenthesis). -/
def popGE (o : BinOp) : List (Option BinOp) → List Tok × List (Option BinOp)
  | some p :: st =>
    if o.prec ≤ p.prec then
      let (out, st2) := popGE o st
      (Tok.op p :: out, st2)
    else ([], some p :: st)
  | st => ([], st)

/-- Pops operators until the matching left parenthesis; its absence is a
mismatched-parentheses error. -/
def popUntilPar : List (Option BinOp) → Except Err (List Tok × List (Option BinOp))
  | [] => .error .mismatchedParens
  | none :: st => .ok ([], st)
  | some p :: st => (popUntilPar st).map (fun (out, st2) => (Tok.op p :: out, st2))

/-- Drains the operator stack at the end of the conversion; a remaining left
parenthesis is a mismatched-parentheses error. -/
def popAll : List (Option BinOp) → Except Err (List Tok)
  | [] => .ok []
  | none :: _ => .error .mismatchedParens
  | some p :: st => (popAll st).map (Tok.op p :: ·)

/-- The infix-to-postfix (shunting-yard) loop of `RuleEngine.parse_expression`
(`src/core/rule_engine.py` lines 166-197): numbers and address tokens go to
the output, operators pop higher-or-equal precedence first, parentheses
override precedence via the stack. -/
def toRpnGo : List Tok → List (Option BinOp) → Except Err (List Tok)
  | [], st => popAll st
  | Tok.num q :: ts, st => (toRpnGo ts st).map (Tok.num q :: ·)
  | Tok.addr s :: ts, st => (toRpnGo ts st).map (Tok.addr s :: ·)
  | Tok.lpar :: ts, st => toRpnGo ts (none :: st)
  | Tok.rpar :: ts, st => do
    let (out, st2) ← popUntilPar st
    (toRpnGo ts st2).map (out ++ ·)
  | Tok.op o :: ts, st =>
    let (out, st2) := popGE o st
    (toRpnGo ts (some o :: st2)).map (out ++ ·)

/-- `RuleEngine.parse_expression`: tokenize, then convert to postfix. -/
def parseExpression (s : String) : Except Err (List Tok) := do
  let ts ← tokenize s
  toRpnGo ts []

/-- An evaluator stack value: a scalar (number), or a whole column
(a `pd.Series` of floats after `to_numeric(...).fillna(0)`). -/
inductive Val where
  | scalar : PyNum → Val
  | col : List Rat → Val
deriving DecidableEq

/-- The scalar-coercion block of `RuleEngine.evaluate_expression`, applied to
each popped operand (lines 238-260) and to the final result (lines 319-329):
`v.iloc[0, 0] if v.shape[0] > 0 and v.shape[1] > 0 else 0.0`.
A scalar has no `shape` and passes through.  A `pd.Series` has `shape = (n,)`,
so for a non-empty column the condition evaluates `shape[1]` and raises
`IndexError` (tuple index out of range); an empty column short-circuits to
0.0. -/
def toScalar : Val → Except Err PyNum
  | .scalar x => .ok x
  | .col xs => if 0 < xs.length then .error .seriesShapeIndex else .ok (.num 0)

/-- `RuleEngine.get_cell_value` (`src/core/rule_engine.py` lines 333-434).
A reference matching `^[A-Za-z]+\d+$` is a single cell: the column is
bounds-checked first, then the row (`int(digits) - 1`; row number 0 is below
range), and the stored cell is coerced with `cellToFloat`.  A reference
matching `^[A-Za-z]+$` is a whole column, returned in row order with the same
coercion.  Anything else is an invalid reference. -/
def getCellValue (cellRef : String) (df : DF) : Except Err Val :=
  let cs := cellRef.toList
  let ls := cs.takeWhile pyIsAlpha
  let rest := cs.dropWhile pyIsAlpha
  if !ls.isEmpty && !rest.isEmpty && rest.all pyIsDigit then
    let colIdx := lettersToIdx ls
    let rowNum := digitsToNat rest
    if colIdx < df.ncols then
      if 1 ≤ rowNum ∧ rowNum - 1 < df.nrows then
        .ok (.scalar (.num (cellToFloat (df.cell (rowNum - 1) colIdx))))
      else .error (.rowOutOfRange (String.mk rest))
    else .error (.colOutOfRange (String.mk ls))
  else if !ls.isEmpty && rest.isEmpty then
    let colIdx := lettersToIdx ls
    if colIdx < df.ncols then
      .ok (.col ((List.range df.nrows).map fun r => cellToFloat (df.cell r colIdx)))
    else .error (.colOutOfRange (String.mk ls))
  else .error (.invalidRef cellRef)

/-- The postfix-evaluation loop of `RuleEngine.evaluate_expression`
(`src/core/rule_engine.py` lines 218-309): numbers push, operators pop two
operands (coercing each through `toScalar`, where a non-empty column raises)
and push the result, address tokens resolve against `df1`, or against `df2`
when prefixed `FILE2:` (an error if `df2` is absent).  A parenthesis can
never appear in postfix output; the source would treat it as a cell
reference, which fails as an invalid reference. -/
def evalGo (df1 : DF) (df2 : Option DF) : List Tok → List Val → Except Err (List Val)
  | [], stack => .ok stack
  | Tok.num q :: ts, stack => evalGo df1 df2 ts (.scalar (.num q) :: stack)
  | Tok.op o :: ts, stack =>
    match stack with
    | b :: a :: stack2 => do
      let a2 ← toScalar a
      let b2 ← toScalar b
      evalGo df1 df2 ts (.scalar (applyOp o a2 b2) :: stack2)
    | _ => .error .invalidExpr
  | Tok.addr s :: ts, stack =>
    if file1Tag.isPrefixOf s.toList then do
      let v ← getCellValue (String.mk (s.toList.drop 6)) df1
      evalGo df1 df2 ts (v :: stack)
    else if file2Tag.isPrefixOf s.toList then
      match df2 with
      | none => .error .needDf2
      | some d => do
        let v ← getCellValue (String.mk (s.toList.drop 6)) d
        evalGo df1 df2 ts (v :: stack)
    else do
      let v ← getCellValue s df1
      evalGo df1 df2 ts (v :: stack)
  | Tok.lpar :: _, _ => .error (.invalidRef "(")
  | Tok.rpar :: _, _ => .error (.invalidRef ")")

/-- `RuleEngine.evaluate_expression` (`src/core/rule_engine.py` lines
199-331): parse to postfix, run the stack machine, require exactly one value
to remain, and apply the final scalar coercion (under which any non-empty
column raises `IndexError`, see `toScalar`). -/
def evaluateExpression (expr : String) (df1 : DF) (df2 : Option DF) : Except Err Val := do
  let rpn ← parseExpression expr
  let stack ← evalGo df1 df2 rpn []
  match stack with
  | [v] => (toScalar v).map .scalar
  | _ => .error .invalidExpr

/-- The six comparison operators a rule is split on. -/
inductive CmpOp where
  | eq | ne | lt | le | gt | ge
deriving DecidableEq

/-- Splits a character list at the first occurrence of `pat`, returning the
parts before and after it (Python `s.split(pat, 1)`); `none` when `pat` does
not occur. -/
def splitFirst (pat : List Char) : List Char → Option (List Char × List Char)
  | [] => if pat.isEmpty then some ([], []) else none
  | c :: rest =>
    if pat.isPrefixOf (c :: rest) then some ([], (c :: rest).drop pat.length)
    else (splitFirst pat rest).map (fun (a, b) => (c :: a, b))

/-- Python `str.strip` on a string. -/
def strip (s : String) : String :=
  String.mk (pyStrip s.toList)

/-- `RuleEngine.parse_rule` (`src/core/rule_engine.py` lines 51-70): the
comparison operators are tried in the fixed priority order
`>=, <=, !=, =, >, <`; the first one that occurs anywhere in the rule splits
it once, and both sides are stripped.  No operator found is an
invalid-rule error. -/
def parseRule (rule : String) : Except Err (String × CmpOp × String) :=
  match splitFirst ['>', '='] rule.toList with
  | some (l, r) => .ok (strip (String.mk l), .ge, strip (String.mk r))
  | none =>
  match splitFirst ['<', '='] rule.toList with
  | some (l, r) => .ok (strip (String.mk l), .le, strip (String.mk r))
  | none =>
  match splitFirst ['!', '='] rule.toList with
  | some (l, r) => .ok (strip (String.mk l), .ne, strip (String.mk r))
  | none =>
  match splitFirst ['='] rule.toList with
  | some (l, r) => .ok (strip (String.mk l), .eq, strip (String.mk r))
  | none =>
  match splitFirst ['>'] rule.toList with
  | some (l, r) => .ok (strip (String.mk l), .gt, strip (String.mk r))
  | none =>
  match splitFirst ['<'] rule.toList with
  | some (l, r) => .ok (strip (String.mk l), .lt, strip (String.mk r))
  | none => .error .invalidRule

/-- The absolute float epsilon `1e-6` used by `validate_rule` for `=`/`!=`. -/
def ruleEps : Rat := 1 / 1000000

/-- Absolute value of a Python float. -/
def pyAbs : PyNum → PyNum
  | .num a => .num |a|
  | .inf => .inf
  | .ninf => .inf
  | .nan => .nan

/-- Python `x < q` against a finite constant. -/
def pyLtConst (x : PyNum) (q : Rat) : Bool :=
  match x with
  | .num a => a < q
  | .inf => false
  | .ninf => true
  | .nan => false

/-- Python `x >= q` against a finite constant. -/
def pyGeConst (x : PyNum) (q : Rat) : Bool :=
  match x with
  | .num a => q ≤ a
  | .inf => true
  | .ninf => false
  | .nan => false

/-- The per-comparison body shared by the scalar branch
(`src/core/rule_engine.py` lines 622-637) and the per-row column branch
(lines 499-515) of `validate_rule`: `=` and `!=` compare
`abs(float(l) - float(r))` against `1e-6`, the four order operators compare
directly. -/
def ruleCmp (op : CmpOp) (l r : PyNum) : Bool :=
  match op with
  | .eq => pyLtConst (pyAbs (pySub l r)) ruleEps
  | .ne => pyGeConst (pyAbs (pySub l r)) ruleEps
  | .lt => pyLtB l r
  | .le => pyLeB l r
  | .gt => pyLtB r l
  | .ge => pyLeB r l

/-- Evidence cells: `(row_idx, col_idx)` pairs, where the column branch
records `None` for the column index and `row_idx` may be negative (the
source computes `int(row) - 1`). -/
abbrev Cells := List (Int × Option Int)

/-- `re.search(r'([A-Za-z]+)(\d+)', rule)` (fuelled leftmost search): the
first maximal run of letters that is immediately followed by a digit, with
the digit run after it. -/
def findCellRef : Nat → List Char → Option (List Char × List Char)
  | 0, _ => none
  | _ + 1, [] => none
  | fuel + 1, c :: rest =>
    if pyIsAlpha c then
      let run := (c :: rest).takeWhile pyIsAlpha
      let after := (c :: rest).dropWhile pyIsAlpha
      match after with
      | d :: _ =>
        if pyIsDigit d then some (run, after.takeWhile pyIsDigit)
        else findCellRef fuel after
      | [] => none
    else findCellRef fuel rest

/-- The scalar branch of `RuleEngine.validate_rule`
(`src/core/rule_engine.py` lines 529-668).  `ensure_scalar` is the identity
on numeric scalars (the only values the evaluator can return) and the
numeric-type guard always passes, so the branch reduces to the comparison
plus the evidence cell extracted from the first `letters+digits` pattern of
the rule text.  The inner `except` arm (returning `(False, [], [])`) is
unreachable in the model because the comparison is total. -/
def scalarCompare (rule : String) (op : CmpOp) (l r : PyNum) : Bool × Cells × Cells :=
  let result := ruleCmp op l r
  match findCellRef (rule.toList.length + 1) rule.toList with
  | some (ls, ds) =>
    let colIdx : Int := lettersToIdx ls
    let rowIdx : Int := (digitsToNat ds : Int) - 1
    if result then (result, [], [(rowIdx, some colIdx)])
    else (result, [(rowIdx, some colIdx)], [])
  | none => (result, [], [])

/-- The per-row loop of the column branch of `validate_rule`
(`src/core/rule_engine.py` lines 494-523): each row index is appended to the
passed or failed list with `None` as the column index. -/
def rowLoop (op : CmpOp) : Nat → List (PyNum × PyNum) → Cells × Cells
  | _, [] => ([], [])
  | i, (l, r) :: t =>
    let (f, p) := rowLoop op (i + 1) t
    if ruleCmp op l r then (f, ((i : Int), none) :: p)
    else (((i : Int), none) :: f, p)

/-- The column branch's result assembly: the rule passes iff no row failed. -/
def colRows (op : CmpOp) (ls rs : List PyNum) : Bool × Cells × Cells :=
  let (f, p) := rowLoop op 0 (ls.zip rs)
  (f.isEmpty, f, p)

/-- The parsing-and-evaluation prefix of `RuleEngine.validate_rule`: split
the rule, then evaluate both sides.  Any error raised here is what the
enclosing `try` of `validate_rule` catches. -/
def ruleParseEval (rule : String) (df1 : DF) (df2 : Option DF) :
    Except Err (CmpOp × Val × Val) := do
  let (l, op, r) ← parseRule rule
  let lv ← evaluateExpression l df1 df2
  let rv ← evaluateExpression r df1 df2
  pure (op, lv, rv)

/-- `RuleEngine.validate_rule` (`src/core/rule_engine.py` lines 436-672).
The whole body runs inside `try: ... except: return False, [], []`, so every
error from parsing or evaluation maps to a failed result with empty
evidence.  When both sides are scalars the scalar branch runs; when either
side is a column (`pd.Series`) the column branch broadcasts the scalar side,
requires equal lengths, and compares row by row.  (`evaluateExpression` can
in fact never return a column — its final coercion raises on any non-empty
one — so the three column cases are dead code, faithfully embedded.) -/
def validateRule (rule : String) (df1 : DF) (df2 : Option DF) : Bool × Cells × Cells :=
  match ruleParseEval rule df1 df2 with
  | .error _ => (false, [], [])
  | .ok (op, lv, rv) =>
    match lv, rv with
    | .scalar a, .scalar b => scalarCompare rule op a b
    | .col xs, .col ys =>
      if xs.length ≠ ys.length then (false, [], [])
      else colRows op (xs.map .num) (ys.map .num)
    | .scalar a, .col ys => colRows op (List.replicate ys.length a) (ys.map .num)
    | .col xs, .scalar b => colRows op (xs.map .num) (List.replicate xs.length b)

/-- A Python tuple of arity 3 is non-empty and therefore always truthy. -/
def tupleTruthy (_ : Bool × Cells × Cells) : Bool := true

/-- `RuleEngine.validate_all_rules` (`src/core/rule_engine.py` lines
674-696): for each registered rule, in order, the source tests
`if self.validate_rule(rule, df1, df2):` — the truthiness of the returned
3-tuple — and appends the rule to the passed or failed list accordingly;
the pair `(passed, failed)` is returned. -/
def validateAllRules (rules : List String) (df1 : DF) (df2 : Option DF) :
    List String × List String :=
  rules.foldl
    (fun acc rule =>
      if tupleTruthy (validateRule rule df1 df2) then (acc.1 ++ [rule], acc.2)
      else (acc.1, acc.2 ++ [rule]))
    ([], [])

/-- A one-cell dataset used by concrete evaluations. -/
def dfOne : DF := ⟨1, 1, fun _ _ => .num 1⟩

/-- The one-column dataset A = [1, -1, 2] of spec Scenario D. -/
def dfColD : DF :=
  ⟨3, 1, fun r _ => if r = 0 then .num 1 else if r = 1 then .num (-1) else .num 2⟩

/-- What the string branch of `compare_direct` compares a present value
against when the other side is absent: the present value's string form,
case-folded when `ignore_case` is set. -/
def strForm (ic : Bool) (v : Cell) : String :=
  if ic then pyLowerStr (pyStr v) else pyStr v

/-- The empty 0-by-0 grid. -/
def dfEmpty0 : DF := ⟨0, 0, fun _ _ => .empty⟩

/-- The 1×1 grid holding the number 2. -/
def dfTwo : DF := ⟨1, 1, fun _ _ => .num 2⟩

/-- Whether a parse result is the range-not-supported error. -/
def isRangeErr : Except Err (List Tok) → Bool
  | .error (.rangeNotSupported _) => true
  | _ => false

/-- Constructor tag of an error, used to compare error classes while
ignoring the message payload (an out-of-range error for `"a"` quotes the
letters in their original case, so only the class is compared). -/
def errKind : Err → Nat
  | .invalidChar _ => 0
  | .rangeNotSupported _ => 1
  | .badNumLit _ => 2
  | .mismatchedParens => 3
  | .invalidExpr => 4
  | .invalidRule => 5
  | .colOutOfRange _ => 6
  | .rowOutOfRange _ => 7
  | .invalidRef _ => 8
  | .needDf2 => 9
  | .seriesShapeIndex => 10

/-! ### Helper lemmas about characters and lists -/

theorem charEq_of_toNat {a b : Char} (h : a.toNat = b.toNat) : a = b := by
  apply Char.eq_of_val_eq
  exact UInt32.toNat.inj h

theorem toNat_ofNat_valid (n : Nat) (h : n < 55296) : (Char.ofNat n).toNat = n := by
  have hv : n.isValidChar := Or.inl h
  simp [Char.ofNat, hv, Char.ofNatAux, Char.toNat, UInt32.toNat]

theorem pyUpperChar_toNat (c : Char) :
    (pyUpperChar c).toNat =
      if 97 ≤ c.toNat ∧ c.toNat ≤ 122 then c.toNat - 32 else c.toNat := by
  unfold pyUpperChar
  by_cases h : 97 ≤ c.toNat ∧ c.toNat ≤ 122
  · rw [if_pos h, if_pos h, toNat_ofNat_valid _ (by omega)]
  · rw [if_neg h, if_neg h]

theorem pyUpperChar_idem (c : Char) : pyUpperChar (pyUpperChar c) = pyUpperChar c := by
  apply charEq_of_toNat
  simp only [pyUpperChar_toNat]
  split_ifs <;> omega

theorem pyUpperChar_digit {c : Char} (h : pyIsDigit c = true) : pyUpperChar c = c := by
  simp only [pyIsDigit, decide_eq_true_eq] at h
  unfold pyUpperChar
  rw [if_neg (by omega)]

theorem pyIsAlpha_upper {c : Char} (h : pyIsAlpha c = true) :
    pyIsAlpha (pyUpperChar c) = true := by
  simp only [pyIsAlpha, decide_eq_true_eq] at h ⊢
  rw [pyUpperChar_toNat]
  by_cases hl : 97 ≤ c.toNat ∧ c.toNat ≤ 122
  · rw [if_pos hl]; omega
  · rw [if_neg hl]; omega

theorem pyIsDigit_not_alpha {c : Char} (h : pyIsDigit c = true) : pyIsAlpha c = false := by
  simp only [pyIsDigit, decide_eq_true_eq] at h
  simp only [pyIsAlpha, decide_eq_false_iff_not]
  omega

theorem pyIsAlpha_not_space {c : Char} (h : pyIsAlpha c = true) : pyIsSpace c = false := by
  simp only [pyIsAlpha, decide_eq_true_eq] at h
  simp only [pyIsSpace, decide_eq_false_iff_not]
  omega

theorem pyIsAlpha_ne_char {c : Char} (h : pyIsAlpha c = true) (d : Char)
    (hd : d.toNat < 65 ∨ (90 < d.toNat ∧ d.toNat < 97) ∨ 122 < d.toNat) : c ≠ d := by
  simp only [pyIsAlpha, decide_eq_true_eq] at h
  intro he
  subst he
  omega

theorem pyIsAlpha_alnum {c : Char} (h : pyIsAlpha c = true) : pyIsAlnum c = true := by
  simp [pyIsAlnum, h]

theorem pyIsDigit_alnum {c : Char} (h : pyIsDigit c = true) : pyIsAlnum c = true := by
  simp [pyIsAlnum, h]

theorem takeWhile_append_all {p : Char → Bool} {l : List Char} (r : List Char)
    (h : ∀ c ∈ l, p c = true) : (l ++ r).takeWhile p = l ++ r.takeWhile p := by
  induction l with
  | nil => rfl
  | cons a t ih =>
    rw [List.cons_append, List.takeWhile_cons, if_pos (h a (List.mem_cons_self a t)),
      ih fun c hc => h c (List.mem_cons_of_mem a hc), List.cons_append]

theorem dropWhile_append_all {p : Char → Bool} {l : List Char} (r : List Char)
    (h : ∀ c ∈ l, p c = true) : (l ++ r).dropWhile p = r.dropWhile p := by
  induction l with
  | nil => rfl
  | cons a t ih =>
    rw [List.cons_append, List.dropWhile_cons, if_pos (h a (List.mem_cons_self a t))]
    exact ih fun c hc => h c (List.mem_cons_of_mem a hc)

theorem takeWhile_all {p : Char → Bool} {l : List Char}
    (h : ∀ c ∈ l, p c = true) : l.takeWhile p = l := by
  have := takeWhile_append_all (p := p) (l := l) [] h
  simpa using this

theorem takeWhile_head_neg {p : Char → Bool} {d : Char} (t : List Char)
    (h : p d = false) : (d :: t).takeWhile p = [] := by
  simp [List.takeWhile_cons, h]

theorem dropWhile_head_neg {p : Char → Bool} {d : Char} (t : List Char)
    (h : p d = false) : (d :: t).dropWhile p = d :: t := by
  simp [List.dropWhile_cons, h]

theorem up_chr_rem_toNat (r : Nat) (h : r < 26) :
    (pyUpperChar (Char.ofNat (r + 65))).toNat = r + 65 := by
  rw [pyUpperChar_toNat, toNat_ofNat_valid _ (by omega)]
  rw [if_neg (by omega)]

theorem colIndexToLetterAux_val (n : Nat) :
    (colIndexToLetterAux n).foldl
      (fun a c => a * 26 + ((pyUpperChar c).toNat - 65 + 1)) 0 = n + 1 := by
  induction n using Nat.strong_induction_on with
  | _ n ih =>
    rw [colIndexToLetterAux]
    by_cases h : n / 26 = 0
    · simp only [h, if_true, List.foldl_cons, List.foldl_nil]
      rw [up_chr_rem_toNat (n % 26) (Nat.mod_lt n (by omega))]
      omega
    · simp only [h, if_false, List.foldl_append, List.foldl_cons, List.foldl_nil]
      rw [ih (n / 26 - 1) (by omega)]
      rw [up_chr_rem_toNat (n % 26) (Nat.mod_lt n (by omega))]
      omega

/-- C9: converting a 0-based column index to letters with
`ComparisonService._col_index_to_letter` and back with
`ExcelComparator.col_letters_to_index` yields the index again, for every
index `n ≥ 0`: `col_letters_to_index` is a left inverse of the
index-to-letters conversion. -/
theorem c9_col_letters_round_trip (n : Nat) :
    colLettersToIndex (colIndexToLetter n) = n := by
  show ((colIndexToLetterAux n).foldl
    (fun a c => a * 26 + ((pyUpperChar c).toNat - 65 + 1)) 0) - 1 = n
  rw [colIndexToLetterAux_val]
  omega

/-- C4: in the `RuleEngine` operator table, dividing by zero returns the
`inf` sentinel and modulo by zero returns 0 — both total, never raising —
while for a non-zero finite divisor they return the ordinary quotient
`a / b` and Python remainder `a % b`. -/
theorem c4_div_mod_zero_policy :
    (∀ a : PyNum, opDiv a (.num 0) = .inf ∧ opMod a (.num 0) = .num 0) ∧
    (∀ qa qb : Rat, qb ≠ 0 →
      opDiv (.num qa) (.num qb) = .num (qa / qb) ∧
      opMod (.num qa) (.num qb) = .num (pyModRat qa qb)) := by
  constructor
  · intro a
    constructor <;> simp [opDiv, opMod, pyNeB, pyEqB]
  · intro qa qb h
    constructor <;> simp [opDiv, opMod, pyNeB, pyEqB, h]

theorem c4_div_mod_zero_policy_witness :
    opDiv (.num 6) (.num 3) = .num (6 / 3) ∧
    opMod (.num 6) (.num 3) = .num (pyModRat 6 3) :=
  c4_div_mod_zero_policy.2 6 3 (by norm_num)

/-- C7: `validate_rule` is total — whenever parsing or evaluating a rule
produces an error, the rule-boundary handler returns `(False, [], [])`, a
failed result with empty evidence, and the error never propagates (the
embedded `validateRule` is a total function). -/
theorem c7_rule_error_boundary (rule : String) (df1 : DF) (df2 : Option DF)
    (e : Err) (h : ruleParseEval rule df1 df2 = .error e) :
    validateRule rule df1 df2 = (false, [], []) := by
  unfold validateRule
  rw [h]

theorem c7_rule_error_boundary_witness :
    validateRule "" dfOne none = (false, [], []) :=
  c7_rule_error_boundary "" dfOne none .invalidRule (by decide)

/-- C1 (code bug): `validate_all_rules` tests the truthiness of the 3-tuple
returned by `validate_rule`, which is always true, so a rule that
`validate_rule` reports as failed (first component `False`) still lands in
the *passed* list and the failed list stays empty — contradicting the claim,
the function's own docstring, and `test_rule_engine.test_validate_all_rules`.
Failing input: the registered rule `"2 < 1"`. -/
theorem c1_validate_all_rules_truthy_bug :
    (validateRule "2 < 1" dfOne none).1 = false ∧
    validateAllRules ["2 < 1"] dfOne none = (["2 < 1"], []) := by
  decide

/-- C3 (code bug): for the column rule `"A > 0"` over column A = [1, -1, 2],
`validate_rule` returns `(False, [], [])` with *no* per-row evidence, because
the final scalar coercion of `evaluate_expression` evaluates
`Series.shape[1]`, which raises `IndexError` for every non-empty column; the
error is caught at the rule boundary.  The per-row column branch of
`validate_rule` (which would produce failed rows [1] and passed rows [0, 2])
is unreachable. -/
theorem c3_column_rule_bug :
    validateRule "A > 0" dfColD none = (false, [], []) ∧
    evaluateExpression "A" dfColD none = .error .seriesShapeIndex := by
  decide

theorem pyLowerStr_empty : pyLowerStr "" = "" := rfl

theorem compareCell_one_absent (tol : Rat) (ic : Bool) (v : Cell)
    (hNA : v.isNA = false) :
    compareCell tol ic v .empty =
      ((if strForm ic v = "" then .equal else .diff), v) ∧
    compareCell tol ic .empty v =
      ((if strForm ic v = "" then .equal else .diff), v) := by
  cases v with
  | empty => simp [Cell.isNA] at hNA
  | num a =>
    constructor
    · simp [compareCell, Cell.isNA, strForm, pyLowerStr_empty]
    · simp [compareCell, Cell.isNA, strForm, pyLowerStr_empty, eq_comm]
  | text s =>
    constructor
    · simp [compareCell, Cell.isNA, strForm, pyLowerStr_empty]
    · simp [compareCell, Cell.isNA, strForm, pyLowerStr_empty, eq_comm]

/-- C2 counterexample: comparing the 1×1 grid [[1]] against an empty grid,
coordinate (0,0) of the union shape has exactly one source cell absent, yet
`compare_direct` classifies it `diff`, not `empty` (the `'empty'` default is
always overwritten: the one-absent case falls through to string
comparison). -/
theorem c2_one_absent_counterexample :
    (compareDirect dfOne dfEmpty0 0 false).statusMap 0 0 = Status.diff ∧
    Status.diff ≠ Status.empty := by
  decide

/-- C2 amended: at a union-shape coordinate where exactly one source cell is
absent, `compare_direct` never assigns `empty`; it falls through to the
string branch, comparing the present value's (case-folded) string form with
the empty string — `diff` unless that form is empty, `equal` otherwise — and
the display value is the present cell's value. -/
theorem c2_one_absent_amended (df1 df2 : DF) (tol : Rat) (ic : Bool)
    (r c : Nat) (v : Cell) :
    (cellAt df1 r c = v → v.isNA = false → cellAt df2 r c = .empty →
      (compareDirect df1 df2 tol ic).statusMap r c =
        (if strForm ic v = "" then .equal else .diff) ∧
      (compareDirect df1 df2 tol ic).display r c = v) ∧
    (cellAt df2 r c = v → v.isNA = false → cellAt df1 r c = .empty →
      (compareDirect df1 df2 tol ic).statusMap r c =
        (if strForm ic v = "" then .equal else .diff) ∧
      (compareDirect df1 df2 tol ic).display r c = v) := by
  constructor
  · intro h1 hNA h2
    have key := (compareCell_one_absent tol ic v hNA).1
    constructor
    · show (compareCell tol ic (cellAt df1 r c) (cellAt df2 r c)).1 = _
      rw [h1, h2, key]
    · show (compareCell tol ic (cellAt df1 r c) (cellAt df2 r c)).2 = _
      rw [h1, h2, key]
  · intro h1 hNA h2
    have key := (compareCell_one_absent tol ic v hNA).2
    constructor
    · show (compareCell tol ic (cellAt df1 r c) (cellAt df2 r c)).1 = _
      rw [h1, h2, key]
    · show (compareCell tol ic (cellAt df1 r c) (cellAt df2 r c)).2 = _
      rw [h1, h2, key]

theorem c2_one_absent_witness :
    (compareDirect dfOne dfEmpty0 0 false).statusMap 0 0 =
      (if strForm false (.num 1) = "" then .equal else .diff) ∧
    (compareDirect dfOne dfEmpty0 0 false).display 0 0 = .num 1 :=
  (c2_one_absent_amended dfOne dfEmpty0 0 false 0 0 (.num 1)).1
    (by decide) (by decide) (by decide)

/-- C5: at a union-shape coordinate where both source cells are present and
numeric, for any non-negative tolerance `t` `compare_direct` classifies the
cell `equal` iff `|v1 - v2| ≤ t` and `diff` otherwise, and the display value
is the first grid's value. -/
theorem c5_numeric_tolerance (df1 df2 : DF) (t : Rat) (ic : Bool)
    (r c : Nat) (a b : Rat) (ht : 0 ≤ t)
    (h1 : cellAt df1 r c = .num a) (h2 : cellAt df2 r c = .num b) :
    (compareDirect df1 df2 t ic).statusMap r c =
      (if |a - b| ≤ t then .equal else .diff) ∧
    (compareDirect df1 df2 t ic).display r c = .num a := by
  constructor
  · show (compareCell t ic (cellAt df1 r c) (cellAt df2 r c)).1 = _
    rw [h1, h2]
    simp [compareCell, Cell.isNA]
  · show (compareCell t ic (cellAt df1 r c) (cellAt df2 r c)).2 = _
    rw [h1, h2]
    simp [compareCell, Cell.isNA]

theorem c5_numeric_tolerance_witness :
    (compareDirect dfOne dfTwo 0 false).statusMap 0 0 =
      (if |(1 : Rat) - 2| ≤ 0 then .equal else .diff) ∧
    (compareDirect dfOne dfTwo 0 false).display 0 0 = .num 1 :=
  c5_numeric_tolerance dfOne dfTwo 0 false 0 0 1 2 (le_refl 0)
    (by decide) (by decide)

/-! ### Infrastructure for the range-rejection and address-resolution claims -/

theorem toList_mk (l : List Char) : (String.mk l).toList = l := rfl

theorem parseExpression_error_of_tokenize {s : String} {e : Err}
    (h : tokenize s = .error e) : parseExpression s = .error e := by
  unfold parseExpression
  rw [h]
  rfl

theorem isPrefixOf_append (l r : List Char) : l.isPrefixOf (l ++ r) = true := by
  rw [List.isPrefixOf_iff_prefix]
  exact List.prefix_append l r

theorem dropWhile_all {p : Char → Bool} {l : List Char}
    (h : ∀ c ∈ l, p c = true) : l.dropWhile p = [] := by
  have := dropWhile_append_all (p := p) (l := l) [] h
  simpa using this

theorem isEmpty_false_of_ne {l : List Char} (h : l ≠ []) : l.isEmpty = false := by
  cases l with
  | nil => exact absurd rfl h
  | cons a t => rfl

/-- The tokenizer rejects a bare `:` as an invalid character: none of its
branches accepts it. -/
theorem tokenizeAux_colon (fuel : Nat) (rest2 : List Char) (ctx : Bool) :
    tokenizeAux (fuel + 1) (':' :: rest2) ctx = .error (.invalidChar ':') := by
  have ht : (':' : Char).toNat = 58 := rfl
  simp [tokenizeAux, pyIsSpace, pyIsAlpha, pyIsDigit, singleOpChar, file1Tag, file2Tag,
    List.isPrefixOf, ht]

/-- One tokenizer step over an address-shaped run (letters then digits) that
is immediately followed by a colon and that does not open with a dataset
prefix: the run becomes one address token, and scanning resumes at the
colon. -/
theorem tokenizeAux_addr_colon (fuel : Nat) (a : Char) (ls' ds rest2 : List Char)
    (ha : ∀ c ∈ a :: ls', pyIsAlpha c = true) (hd : ∀ c ∈ ds, pyIsDigit c = true)
    (h1 : file1Tag.isPrefixOf (a :: (ls' ++ ds ++ ':' :: rest2)) = false)
    (h2 : file2Tag.isPrefixOf (a :: (ls' ++ ds ++ ':' :: rest2)) = false) :
    tokenizeAux (fuel + 1) (a :: (ls' ++ ds ++ ':' :: rest2)) true
      = (tokenizeAux fuel (':' :: rest2) false).map
          (Tok.addr (String.mk (a :: (ls' ++ ds))) :: ·) := by
  have haa : pyIsAlpha a = true := ha a (by simp)
  have hsp : pyIsSpace a = false := pyIsAlpha_not_space haa
  have hdash : a ≠ '-' := pyIsAlpha_ne_char haa '-' (by decide)
  have hAll : ∀ c ∈ a :: (ls' ++ ds), pyIsAlnum c = true := by
    intro c hc
    rcases List.mem_cons.mp hc with rfl | hc2
    · exact pyIsAlpha_alnum haa
    · rcases List.mem_append.mp hc2 with h | h
      · exact pyIsAlpha_alnum (ha c (by simp [h]))
      · exact pyIsDigit_alnum (hd c h)
  have hshape : a :: (ls' ++ ds ++ ':' :: rest2) = (a :: (ls' ++ ds)) ++ (':' :: rest2) := by
    simp
  have htw : (a :: (ls' ++ ds ++ ':' :: rest2)).takeWhile pyIsAlnum = a :: (ls' ++ ds) := by
    rw [hshape, takeWhile_append_all _ hAll, takeWhile_head_neg _ (by decide), List.append_nil]
  have hdw : (a :: (ls' ++ ds ++ ':' :: rest2)).dropWhile pyIsAlnum = ':' :: rest2 := by
    rw [hshape, dropWhile_append_all _ hAll, dropWhile_head_neg _ (by decide)]
  simp only [tokenizeAux, hsp, Bool.false_eq_true, if_false, hdash, decide_eq_false hdash,
    decide_False, Bool.false_and, h1, h2, haa, if_true, htw, hdw]

/-- An expression of the shape `letters digits : anything` (not opening with
a dataset prefix) fails tokenizing with the invalid-character error at the
colon: `A1` and `B2` of `A1:B2` never form one range token. -/
theorem tokenizeBareRange (ls1 ds1 rest2 : List Char) (hl : ls1 ≠ [])
    (ha : ∀ c ∈ ls1, pyIsAlpha c = true) (hd1 : ds1 ≠ [])
    (hb : ∀ c ∈ ds1, pyIsDigit c = true)
    (hp1 : file1Tag.isPrefixOf (ls1 ++ ds1 ++ ':' :: rest2) = false)
    (hp2 : file2Tag.isPrefixOf (ls1 ++ ds1 ++ ':' :: rest2) = false) :
    parseExpression (String.mk (ls1 ++ ds1 ++ ':' :: rest2)) = .error (.invalidChar ':') := by
  obtain ⟨a, ls', rfl⟩ : ∃ a t, ls1 = a :: t := by
    cases ls1 with
    | nil => exact absurd rfl hl
    | cons a t => exact ⟨a, t, rfl⟩
  apply parseExpression_error_of_tokenize
  unfold tokenize
  rw [toList_mk]
  have hsh : (a :: ls') ++ ds1 ++ ':' :: rest2 = a :: (ls' ++ ds1 ++ ':' :: rest2) := by simp
  rw [hsh]
  rw [List.length_cons]
  rw [tokenizeAux_addr_colon _ a ls' ds1 rest2 ha hb (by rw [← hsh]; exact hp1)
    (by rw [← hsh]; exact hp2)]
  have hlen : (ls' ++ ds1 ++ ':' :: rest2).length = (ls' ++ ds1 ++ rest2).length + 1 := by
    simp
    omega
  rw [hlen, tokenizeAux_colon]
  rfl

theorem except_map_ok {α β γ : Type} {f : α → β} {x : Except γ α} {ts : β}
    (h : Except.map f x = .ok ts) : ∃ y, x = .ok y := by
  cases x with
  | ok y => exact ⟨y, rfl⟩
  | error e => simp [Except.map] at h

theorem colon_split (w : List Char) : ∀ u v r : List Char, u ++ ':' :: v = w ++ r →
    (∃ u2, u = w ++ u2 ∧ r = u2 ++ ':' :: v) ∨ ∃ w2, w = u ++ ':' :: w2 := by
  induction w with
  | nil =>
    intro u v r h
    left
    refine ⟨u, by simp, ?_⟩
    rw [List.nil_append] at h
    exact h.symm
  | cons a w' ih =>
    intro u v r h
    cases u with
    | nil =>
      right
      rw [List.nil_append] at h
      injection h with h1 h2
      exact ⟨w', by rw [List.nil_append, ← h1]⟩
    | cons b u' =>
      rw [List.cons_append] at h
      injection h with h1 h2
      subst h1
      rcases ih u' v r h2 with ⟨u2, hu, hr⟩ | ⟨w2, hw⟩
      · left
        exact ⟨u2, by rw [List.cons_append, hu], hr⟩
      · right
        exact ⟨w2, by rw [List.cons_append, hw]⟩

theorem suffix_ext {l u : List Char} (w : List Char) (h : l <:+ u) : l <:+ w ++ u := by
  obtain ⟨t, rfl⟩ := h
  exact ⟨w ++ t, by rw [List.append_assoc]⟩

theorem run_no_colon {p : Char → Bool} (hp : p ':' = false) (l : List Char) :
    ':' ∉ l.takeWhile p := by
  intro hmem
  rw [List.mem_takeWhile_imp hmem] at hp
  exact absurd hp (by simp)

theorem file1_colon_pre {u w2 : List Char} (h : u ++ ':' :: w2 = file1Tag) :
    u = tag1base := by
  rcases u with _ | ⟨a, _ | ⟨b, _ | ⟨c, _ | ⟨d, _ | ⟨e, _ | ⟨f, u⟩⟩⟩⟩⟩⟩ <;>
    simp_all [file1Tag, tag1base]

theorem file2_colon_pre {u w2 : List Char} (h : u ++ ':' :: w2 = file2Tag) :
    u = tag2base := by
  rcases u with _ | ⟨a, _ | ⟨b, _ | ⟨c, _ | ⟨d, _ | ⟨e, _ | ⟨f, u⟩⟩⟩⟩⟩⟩ <;>
    simp_all [file2Tag, tag2base]

theorem colonTagged_ext {u2 : List Char} (w : List Char) (h : colonTagged u2) :
    colonTagged (w ++ u2) :=
  h.imp (suffix_ext w) (suffix_ext w)

theorem step_run {fuel : Nat} {w rest2 u v : List Char} {ctx : Bool} {ts : List Tok}
    (ih : ∀ (l : List Char) (ctx : Bool) (ts : List Tok),
      tokenizeAux fuel l ctx = .ok ts →
      ∀ u v : List Char, l = u ++ ':' :: v → colonTagged u)
    (hok : tokenizeAux fuel rest2 ctx = .ok ts)
    (hw : ':' ∉ w)
    (hl : w ++ rest2 = u ++ ':' :: v) :
    colonTagged u := by
  rcases colon_split w u v rest2 hl.symm with ⟨u2, hu, hr⟩ | ⟨w2, hw2⟩
  · rw [hu]
    exact colonTagged_ext w (ih rest2 ctx ts hok u2 v hr)
  · exact absurd (by rw [hw2]; simp : ':' ∈ w) hw

theorem not_colon_single {c : Char} (hc : c ≠ ':') : ':' ∉ [c] := by
  simp
  exact fun he => hc he.symm

theorem tokenize_ok_colon_tagged (fuel : Nat) :
    ∀ (l : List Char) (ctx : Bool) (ts : List Tok),
      tokenizeAux fuel l ctx = .ok ts →
      ∀ u v : List Char, l = u ++ ':' :: v → colonTagged u := by
  induction fuel with
  | zero =>
    intro l ctx ts h
    simp [tokenizeAux] at h
  | succ fuel ih =>
    intro l ctx ts h u v hl
    cases l with
    | nil => simp at hl
    | cons c rest =>
      simp only [tokenizeAux] at h
      by_cases hsp : pyIsSpace c = true
      · rw [if_pos hsp] at h
        have hc : c ≠ ':' := by
          intro he
          subst he
          exact absurd hsp (by decide)
        exact step_run (w := [c]) ih h (not_colon_single hc) (by simpa using hl)
      · rw [if_neg (by simp [hsp])] at h
        by_cases hdash : (decide (c = '-') && ctx) = true
        · rw [if_pos hdash] at h
          obtain ⟨hc, -⟩ : c = '-' ∧ ctx = true := by simpa using hdash
          subst hc
          split at h
          · -- rest = d :: tail
            rename_i d tail
            by_cases hd1 : (pyIsDigit d || decide (d = '.')) = true
            · rw [if_pos hd1] at h
              split at h
              · -- parseNumRun = some
                obtain ⟨y, hok⟩ := except_map_ok h
                have hnc : ':' ∉ '-' :: (d :: tail).takeWhile (fun x => pyIsDigit x || decide (x = '.')) := by
                  intro hmem
                  rcases List.mem_cons.mp hmem with he | hmem2
                  · exact absurd he (by decide)
                  · exact run_no_colon (by decide) (d :: tail) hmem2
                refine step_run (v := v)
                  (w := '-' :: (d :: tail).takeWhile fun x => pyIsDigit x || decide (x = '.'))
                  ih hok hnc ?_
                rw [List.cons_append, List.takeWhile_append_dropWhile]
                exact hl
              · -- parseNumRun = none: error
                simp at h
            · rw [if_neg hd1] at h
              obtain ⟨y, hok⟩ := except_map_ok h
              exact step_run (w := ['-']) ih hok (by decide) (by simpa using hl)
          · -- rest = []
            obtain ⟨y, hok⟩ := except_map_ok h
            exact step_run (w := ['-']) ih hok (by decide) (by simpa using hl)
        · rw [if_neg hdash] at h
          by_cases hf1 : file1Tag.isPrefixOf (c :: rest) = true
          · rw [if_pos hf1] at h
            obtain ⟨rem, hrem0⟩ : ∃ t, file1Tag ++ t = c :: rest := by
              rw [List.isPrefixOf_iff_prefix] at hf1
              exact hf1
            have hrem : c :: rest = file1Tag ++ rem := hrem0.symm
            have hdrop : (c :: rest).drop 6 = rem := by rw [hrem]; rfl
            rw [hdrop] at h
            by_cases hcnt : 1 < (file1Tag ++ rem.takeWhile fun x => pyIsAlnum x || decide (x = ':')).count ':'
            · rw [if_pos hcnt] at h
              simp at h
            · rw [if_neg hcnt] at h
              obtain ⟨y, hok⟩ := except_map_ok h
              have hrun0 : (rem.takeWhile fun x => pyIsAlnum x || decide (x = ':')).count ':' = 0 := by
                rw [List.count_append] at hcnt
                have : file1Tag.count ':' = 1 := by decide
                omega
              have hruncolon : ':' ∉ rem.takeWhile fun x => pyIsAlnum x || decide (x = ':') :=
                List.count_eq_zero.mp hrun0
              rw [hrem] at hl
              rcases colon_split file1Tag u v
                  (rem.takeWhile (fun x => pyIsAlnum x || decide (x = ':')) ++
                    rem.dropWhile fun x => pyIsAlnum x || decide (x = ':'))
                  (by rw [List.takeWhile_append_dropWhile]; exact hl.symm) with
                ⟨u2, hu, hr⟩ | ⟨w2, hw2⟩
              · rw [hu]
                exact colonTagged_ext file1Tag (step_run ih hok hruncolon hr)
              · rw [file1_colon_pre hw2.symm]
                exact Or.inl ⟨[], rfl⟩
          · rw [if_neg hf1] at h
            by_cases hf2 : file2Tag.isPrefixOf (c :: rest) = true
            · rw [if_pos hf2] at h
              obtain ⟨rem, hrem0⟩ : ∃ t, file2Tag ++ t = c :: rest := by
                rw [List.isPrefixOf_iff_prefix] at hf2
                exact hf2
              have hrem : c :: rest = file2Tag ++ rem := hrem0.symm
              have hdrop : (c :: rest).drop 6 = rem := by rw [hrem]; rfl
              rw [hdrop] at h
              by_cases hcnt : 1 < (file2Tag ++ rem.takeWhile fun x => pyIsAlnum x || decide (x = ':')).count ':'
              · rw [if_pos hcnt] at h
                simp at h
              · rw [if_neg hcnt] at h
                obtain ⟨y, hok⟩ := except_map_ok h
                have hrun0 : (rem.takeWhile fun x => pyIsAlnum x || decide (x = ':')).count ':' = 0 := by
                  rw [List.count_append] at hcnt
                  have : file2Tag.count ':' = 1 := by decide
                  omega
                have hruncolon : ':' ∉ rem.takeWhile fun x => pyIsAlnum x || decide (x = ':') :=
                  List.count_eq_zero.mp hrun0
                rw [hrem] at hl
                rcases colon_split file2Tag u v
                    (rem.takeWhile (fun x => pyIsAlnum x || decide (x = ':')) ++
                      rem.dropWhile fun x => pyIsAlnum x || decide (x = ':'))
                    (by rw [List.takeWhile_append_dropWhile]; exact hl.symm) with
                  ⟨u2, hu, hr⟩ | ⟨w2, hw2⟩
                · rw [hu]
                  exact colonTagged_ext file2Tag (step_run ih hok hruncolon hr)
                · rw [file2_colon_pre hw2.symm]
                  exact Or.inr ⟨[], rfl⟩
            · rw [if_neg hf2] at h
              by_cases hal : pyIsAlpha c = true
              · rw [if_pos hal] at h
                obtain ⟨y, hok⟩ := except_map_ok h
                refine step_run (v := v) (w := (c :: rest).takeWhile pyIsAlnum) ih hok
                  (run_no_colon (by decide) (c :: rest)) ?_
                rw [List.takeWhile_append_dropWhile]
                exact hl
              · rw [if_neg hal] at h
                by_cases hdig : (pyIsDigit c || decide (c = '.')) = true
                · rw [if_pos hdig] at h
                  split at h
                  · obtain ⟨y, hok⟩ := except_map_ok h
                    refine step_run
                      (v := v) (w := (c :: rest).takeWhile fun x => pyIsDigit x || decide (x = '.'))
                      ih hok (run_no_colon (by decide) (c :: rest)) ?_
                    rw [List.takeWhile_append_dropWhile]
                    exact hl
                  · simp at h
                · rw [if_neg hdig] at h
                  split at h
                  · -- singleOpChar c = some o
                    rename_i o heq
                    have hcop : c ≠ ':' := by
                      intro he
                      subst he
                      simp [singleOpChar] at heq
                    clear hsp hdash hf1 hf2 hal hdig heq
                    split at h
                    · -- c = '<', rest = '=' :: rest2
                      rename_i rest2
                      obtain ⟨y, hok⟩ := except_map_ok h
                      exact step_run (w := ['<', '=']) ih hok (by decide) (by simpa using hl)
                    · -- c = '>', rest = '=' :: rest2
                      rename_i rest2
                      obtain ⟨y, hok⟩ := except_map_ok h
                      exact step_run (w := ['>', '=']) ih hok (by decide) (by simpa using hl)
                    · -- any other operator: one character consumed
                      obtain ⟨y, hok⟩ := except_map_ok h
                      exact step_run (w := [c]) ih hok (not_colon_single hcop) (by simpa using hl)
                  · -- singleOpChar c = none: parentheses or invalid character
                    by_cases hlp : c = '('
                    · rw [if_pos hlp] at h
                      obtain ⟨y, hok⟩ := except_map_ok h
                      subst hlp
                      exact step_run (w := ['(']) ih hok (by decide) (by simpa using hl)
                    · rw [if_neg hlp] at h
                      by_cases hrp : c = ')'
                      · rw [if_pos hrp] at h
                        obtain ⟨y, hok⟩ := except_map_ok h
                        subst hrp
                        exact step_run (w := [')']) ih hok (by decide) (by simpa using hl)
                      · rw [if_neg hrp] at h
                        simp at h

theorem tokenize_ok_of_parse {s : String} {ts : List Tok}
    (h : parseExpression s = .ok ts) : ∃ ts2, tokenize s = .ok ts2 := by
  unfold parseExpression at h
  cases htok : tokenize s with
  | ok ts2 => exact ⟨ts2, rfl⟩
  | error e =>
    rw [htok] at h
    simp [Bind.bind, Except.bind] at h

/-- Any expression in which a colon is not immediately preceded by the
dataset tag `FILE1`/`FILE2` fails to parse. -/
theorem parse_colon_untagged_fails (pre suf : List Char)
    (h1 : ¬ tag1base <:+ pre) (h2 : ¬ tag2base <:+ pre) :
    ∃ e, parseExpression (String.mk (pre ++ ':' :: suf)) = .error e := by
  cases hres : parseExpression (String.mk (pre ++ ':' :: suf)) with
  | error e => exact ⟨e, rfl⟩
  | ok ts =>
    exfalso
    obtain ⟨ts2, htok⟩ := tokenize_ok_of_parse hres
    unfold tokenize at htok
    rw [toList_mk] at htok
    rcases tokenize_ok_colon_tagged _ _ _ _ htok pre suf rfl with h | h
    · exact h1 h
    · exact h2 h

-- generalized FILE range lemmas allowing a tail after the scanned run
theorem tokenizeFile1RangeGen (run tail : List Char)
    (hrun : ∀ c ∈ run, (pyIsAlnum c || decide (c = ':')) = true)
    (htail : ∀ d ∈ tail.take 1, (pyIsAlnum d || decide (d = ':')) = false)
    (hcount : 1 ≤ run.count ':') :
    parseExpression (String.mk (file1Tag ++ run ++ tail)) =
      .error (.rangeNotSupported (String.mk (file1Tag ++ run))) := by
  apply parseExpression_error_of_tokenize
  unfold tokenize
  rw [toList_mk]
  have hsh : file1Tag ++ run ++ tail = 'F' :: ('I' :: 'L' :: 'E' :: '1' :: ':' :: (run ++ tail)) := by
    simp [file1Tag]
  rw [hsh, List.length_cons]
  have hpre : file1Tag.isPrefixOf ('F' :: 'I' :: 'L' :: 'E' :: '1' :: ':' :: (run ++ tail)) = true := by
    rw [show ('F' :: 'I' :: 'L' :: 'E' :: '1' :: ':' :: (run ++ tail)) = file1Tag ++ (run ++ tail) from by
      simp [file1Tag]]
    exact isPrefixOf_append file1Tag (run ++ tail)
  have hdrop : (('F' :: 'I' :: 'L' :: 'E' :: '1' :: ':' :: (run ++ tail)).drop 6) = run ++ tail := rfl
  have htw : (run ++ tail).takeWhile (fun x => pyIsAlnum x || decide (x = ':')) = run := by
    rw [takeWhile_append_all _ hrun]
    cases tail with
    | nil => simp
    | cons d t2 =>
      rw [takeWhile_head_neg _ (htail d (by simp)), List.append_nil]
  have hcnt : 1 < (file1Tag ++ (run ++ tail).takeWhile (fun x => pyIsAlnum x || decide (x = ':'))).count ':' := by
    rw [htw, List.count_append]
    have : file1Tag.count ':' = 1 := by decide
    omega
  simp only [tokenizeAux, hpre, if_true]
  have hspF : pyIsSpace 'F' = false := by decide
  have hdashF : decide (('F' : Char) = '-') = false := by decide
  simp only [hspF, Bool.false_eq_true, if_false, hdashF, Bool.false_and, hdrop, hcnt, if_true]
  rw [htw]

theorem tokenizeFile2RangeGen (run tail : List Char)
    (hrun : ∀ c ∈ run, (pyIsAlnum c || decide (c = ':')) = true)
    (htail : ∀ d ∈ tail.take 1, (pyIsAlnum d || decide (d = ':')) = false)
    (hcount : 1 ≤ run.count ':') :
    parseExpression (String.mk (file2Tag ++ run ++ tail)) =
      .error (.rangeNotSupported (String.mk (file2Tag ++ run))) := by
  apply parseExpression_error_of_tokenize
  unfold tokenize
  rw [toList_mk]
  have hsh : file2Tag ++ run ++ tail = 'F' :: ('I' :: 'L' :: 'E' :: '2' :: ':' :: (run ++ tail)) := by
    simp [file2Tag]
  rw [hsh, List.length_cons]
  have hpre1 : file1Tag.isPrefixOf ('F' :: 'I' :: 'L' :: 'E' :: '2' :: ':' :: (run ++ tail)) = false := by
    simp [file1Tag, List.isPrefixOf]
  have hpre2 : file2Tag.isPrefixOf ('F' :: 'I' :: 'L' :: 'E' :: '2' :: ':' :: (run ++ tail)) = true := by
    rw [show ('F' :: 'I' :: 'L' :: 'E' :: '2' :: ':' :: (run ++ tail)) = file2Tag ++ (run ++ tail) from by
      simp [file2Tag]]
    exact isPrefixOf_append file2Tag (run ++ tail)
  have hdrop : (('F' :: 'I' :: 'L' :: 'E' :: '2' :: ':' :: (run ++ tail)).drop 6) = run ++ tail := rfl
  have htw : (run ++ tail).takeWhile (fun x => pyIsAlnum x || decide (x = ':')) = run := by
    rw [takeWhile_append_all _ hrun]
    cases tail with
    | nil => simp
    | cons d t2 =>
      rw [takeWhile_head_neg _ (htail d (by simp)), List.append_nil]
  have hcnt : 1 < (file2Tag ++ (run ++ tail).takeWhile (fun x => pyIsAlnum x || decide (x = ':'))).count ':' := by
    rw [htw, List.count_append]
    have : file2Tag.count ':' = 1 := by decide
    omega
  simp only [tokenizeAux, hpre1, hpre2, if_true, Bool.false_eq_true, if_false]
  have hspF : pyIsSpace 'F' = false := by decide
  have hdashF : decide (('F' : Char) = '-') = false := by decide
  simp only [hspF, Bool.false_eq_true, if_false, hdashF, Bool.false_and, hdrop, hcnt, if_true]
  rw [htw]

/-- C6 counterexample: the expression `A1:B2` contains a rectangular range
token, yet `parse_expression` raises the invalid-character syntax error at
the colon, not a range-not-supported error (which only the
`FILE1:`/`FILE2:`-prefixed scanner produces). -/
theorem c6_range_counterexample :
    parseExpression "A1:B2" = .error (.invalidChar ':') ∧
    isRangeErr (parseExpression "A1:B2") = false := by
  decide

/-- C6 amended: a rule expression containing a rectangular multi-cell range
never parses and is never silently truncated, wherever the range sits in the
expression. (1) In full generality: any expression in which an address-shaped
run `letters digits` is followed by a colon — with arbitrary material before
and after, provided the characters preceding the colon do not end in the
dataset tag `FILE1`/`FILE2` — fails to parse with some error. (2) The error
class splits by form: a bare range opening the expression (e.g. `A1:B2`)
fails tokenizing with the invalid-character syntax error at the colon, while
(3) a `FILE1:`/`FILE2:`-prefixed token whose body carries a further colon
(e.g. `FILE1:A1:B2`), followed by any non-token material, fails with the
range-not-supported error naming that token. -/
theorem c6_range_amended :
    (∀ pre ls ds suf : List Char, ls ≠ [] → (∀ c ∈ ls, pyIsAlpha c = true) →
      ds ≠ [] → (∀ c ∈ ds, pyIsDigit c = true) →
      ¬ tag1base <:+ (pre ++ ls ++ ds) → ¬ tag2base <:+ (pre ++ ls ++ ds) →
      ∃ e, parseExpression (String.mk (pre ++ ls ++ ds ++ ':' :: suf)) = .error e) ∧
    (∀ ls1 ds1 rest2 : List Char, ls1 ≠ [] → (∀ c ∈ ls1, pyIsAlpha c = true) →
      ds1 ≠ [] → (∀ c ∈ ds1, pyIsDigit c = true) →
      file1Tag.isPrefixOf (ls1 ++ ds1 ++ ':' :: rest2) = false →
      file2Tag.isPrefixOf (ls1 ++ ds1 ++ ':' :: rest2) = false →
      parseExpression (String.mk (ls1 ++ ds1 ++ ':' :: rest2)) = .error (.invalidChar ':')) ∧
    (∀ run tail : List Char, (∀ c ∈ run, (pyIsAlnum c || decide (c = ':')) = true) →
      (∀ d ∈ tail.take 1, (pyIsAlnum d || decide (d = ':')) = false) →
      1 ≤ run.count ':' →
      parseExpression (String.mk (file1Tag ++ run ++ tail)) =
        .error (.rangeNotSupported (String.mk (file1Tag ++ run))) ∧
      parseExpression (String.mk (file2Tag ++ run ++ tail)) =
        .error (.rangeNotSupported (String.mk (file2Tag ++ run)))) := by
  refine ⟨?_, tokenizeBareRange, ?_⟩
  · intro pre ls ds suf hl ha hd hb h1 h2
    have := parse_colon_untagged_fails (pre ++ ls ++ ds) suf h1 h2
    simpa using this
  · intro run tail hrun htail hcount
    exact ⟨tokenizeFile1RangeGen run tail hrun htail hcount,
      tokenizeFile2RangeGen run tail hrun htail hcount⟩

theorem c6_range_witness :
    (∃ e, parseExpression (String.mk (['1', ' ', '+', ' '] ++ ['A'] ++ ['1'] ++ ':' :: ['B', '2'])) =
      .error e) ∧
    parseExpression (String.mk (['a'] ++ ['1'] ++ ':' :: ['B', '2'])) = .error (.invalidChar ':') ∧
    parseExpression (String.mk (file1Tag ++ ['A', '1', ':', 'B', '2'] ++ [' ', '+', ' ', '1'])) =
      .error (.rangeNotSupported (String.mk (file1Tag ++ ['A', '1', ':', 'B', '2']))) := by
  refine ⟨?_, ?_, ?_⟩
  · exact c6_range_amended.1 ['1', ' ', '+', ' '] ['A'] ['1'] ['B', '2'] (by decide) (by decide)
      (by decide) (by decide) (by decide) (by decide)
  · exact c6_range_amended.2.1 ['a'] ['1'] ['B', '2'] (by decide) (by decide) (by decide)
      (by decide) (by decide) (by decide)
  · exact (c6_range_amended.2.2 ['A', '1', ':', 'B', '2'] [' ', '+', ' ', '1'] (by decide)
      (by decide) (by decide)).1

theorem getCellValue_cell_form (df : DF) (ls ds : List Char)
    (hl : ls ≠ []) (ha : ∀ c ∈ ls, pyIsAlpha c = true)
    (hd : ds ≠ []) (hb : ∀ c ∈ ds, pyIsDigit c = true) :
    getCellValue (String.mk (ls ++ ds)) df =
      if lettersToIdx ls < df.ncols then
        if 1 ≤ digitsToNat ds ∧ digitsToNat ds - 1 < df.nrows then
          .ok (.scalar (.num (cellToFloat (df.cell (digitsToNat ds - 1) (lettersToIdx ls)))))
        else .error (.rowOutOfRange (String.mk ds))
      else .error (.colOutOfRange (String.mk ls)) := by
  obtain ⟨d, t, rfl⟩ : ∃ d t, ds = d :: t := by
    cases ds with
    | nil => exact absurd rfl hd
    | cons d t => exact ⟨d, t, rfl⟩
  have hda : pyIsAlpha d = false := pyIsDigit_not_alpha (hb d (by simp))
  have htw : (ls ++ d :: t).takeWhile pyIsAlpha = ls := by
    rw [takeWhile_append_all _ ha, takeWhile_head_neg _ hda, List.append_nil]
  have hdw : (ls ++ d :: t).dropWhile pyIsAlpha = d :: t := by
    rw [dropWhile_append_all _ ha, dropWhile_head_neg _ hda]
  have hall : (d :: t).all pyIsDigit = true := List.all_eq_true.mpr hb
  unfold getCellValue
  rw [toList_mk]
  simp only [htw, hdw, isEmpty_false_of_ne hl, List.isEmpty_cons, hall,
    Bool.not_false, Bool.and_self, Bool.and_true, if_true]

theorem getCellValue_col_form (df : DF) (ls : List Char)
    (hl : ls ≠ []) (ha : ∀ c ∈ ls, pyIsAlpha c = true) :
    getCellValue (String.mk ls) df =
      if lettersToIdx ls < df.ncols then
        .ok (.col ((List.range df.nrows).map fun r => cellToFloat (df.cell r (lettersToIdx ls))))
      else .error (.colOutOfRange (String.mk ls)) := by
  have htw : ls.takeWhile pyIsAlpha = ls := takeWhile_all ha
  have hdw : ls.dropWhile pyIsAlpha = [] := dropWhile_all ha
  unfold getCellValue
  rw [toList_mk]
  simp only [htw, hdw, isEmpty_false_of_ne hl, List.isEmpty_nil, Bool.not_true,
    Bool.and_false, Bool.false_and, Bool.not_false, Bool.and_true, Bool.and_self,
    Bool.false_eq_true, if_false, if_true]

/-- C8: for a single-cell address (letters plus a 1-based row number),
`get_cell_value` raises the out-of-range error exactly when the 0-based
column or row index falls outside the dataset's shape (the column is checked
first), and otherwise returns the cell content as a float, with an
absent/empty cell resolving to 0 and unparseable text to 0; a whole-column
address returns the full column in row order with the same coercion, after
the same column bounds check. -/
theorem c8_get_cell_value_bounds (df : DF) (ls ds : List Char)
    (hl : ls ≠ []) (ha : ∀ c ∈ ls, pyIsAlpha c = true)
    (hd : ds ≠ []) (hb : ∀ c ∈ ds, pyIsDigit c = true) :
    (getCellValue (String.mk (ls ++ ds)) df =
      if lettersToIdx ls < df.ncols then
        if 1 ≤ digitsToNat ds ∧ digitsToNat ds - 1 < df.nrows then
          .ok (.scalar (.num (cellToFloat (df.cell (digitsToNat ds - 1) (lettersToIdx ls)))))
        else .error (.rowOutOfRange (String.mk ds))
      else .error (.colOutOfRange (String.mk ls))) ∧
    (getCellValue (String.mk ls) df =
      if lettersToIdx ls < df.ncols then
        .ok (.col ((List.range df.nrows).map fun r => cellToFloat (df.cell r (lettersToIdx ls))))
      else .error (.colOutOfRange (String.mk ls))) ∧
    cellToFloat .empty = 0 ∧
    (∀ s : String, pyFloat? s = none → cellToFloat (.text s) = 0) :=
  ⟨getCellValue_cell_form df ls ds hl ha hd hb,
   getCellValue_col_form df ls hl ha,
   rfl,
   fun s h => by simp [cellToFloat, h]⟩

theorem c8_get_cell_value_bounds_witness :
    getCellValue "A1" dfOne = .ok (.scalar (.num 1)) ∧
    getCellValue "A" dfOne = .ok (.col [1]) ∧
    getCellValue "A2" dfOne = .error (.rowOutOfRange "2") ∧
    getCellValue "B1" dfOne = .error (.colOutOfRange "B") := by
  have h := c8_get_cell_value_bounds dfOne ['A'] ['1'] (by decide) (by decide)
    (by decide) (by decide)
  have h2 := c8_get_cell_value_bounds dfOne ['A'] ['2'] (by decide) (by decide)
    (by decide) (by decide)
  have h3 := c8_get_cell_value_bounds dfOne ['B'] ['1'] (by decide) (by decide)
    (by decide) (by decide)
  refine ⟨?_, ?_, ?_, ?_⟩
  · have := h.1
    rw [show String.mk (['A'] ++ ['1']) = "A1" from rfl] at this
    rw [this]
    decide
  · have := h.2.1
    rw [show String.mk ['A'] = "A" from rfl] at this
    rw [this]
    decide
  · have := h2.1
    rw [show String.mk (['A'] ++ ['2']) = "A2" from rfl] at this
    rw [this]
    decide
  · have := h3.1
    rw [show String.mk (['B'] ++ ['1']) = "B1" from rfl] at this
    rw [this]
    decide

theorem lettersToIdx_map_up (ls : List Char) :
    lettersToIdx (ls.map pyUpperChar) = lettersToIdx ls := by
  unfold lettersToIdx
  rw [List.foldl_map]
  have hfun : (fun (a : Nat) (c : Char) => a * 26 + ((pyUpperChar (pyUpperChar c)).toNat - 65 + 1))
      = fun (a : Nat) (c : Char) => a * 26 + ((pyUpperChar c).toNat - 65 + 1) := by
    funext a c
    rw [pyUpperChar_idem]
  rw [hfun]

theorem map_upper_digits {ds : List Char} (hb : ∀ c ∈ ds, pyIsDigit c = true) :
    ds.map pyUpperChar = ds := by
  induction ds with
  | nil => rfl
  | cons d t ih =>
    rw [List.map_cons, pyUpperChar_digit (hb d (by simp)),
      ih (fun c hc => hb c (by simp [hc]))]

theorem ok_iff_of_mapErrorEq {x y : Except Err Val}
    (h : Except.mapError errKind x = Except.mapError errKind y) (v : Val) :
    x = .ok v ↔ y = .ok v := by
  constructor
  · intro hx
    rw [hx] at h
    cases y with
    | ok a => simp only [Except.mapError, Except.ok.injEq] at h; rw [h]
    | error e => simp [Except.mapError] at h
  · intro hy
    rw [hy] at h
    cases x with
    | ok a => simp only [Except.mapError, Except.ok.injEq] at h; rw [h]
    | error e => simp [Except.mapError] at h

theorem getCellValue_upper_eq (df : DF) (ls ds : List Char)
    (hl : ls ≠ []) (ha : ∀ c ∈ ls, pyIsAlpha c = true)
    (hb : ∀ c ∈ ds, pyIsDigit c = true) :
    Except.mapError errKind (getCellValue (String.mk ((ls ++ ds).map pyUpperChar)) df) =
      Except.mapError errKind (getCellValue (String.mk (ls ++ ds)) df) := by
  have hmap : (ls ++ ds).map pyUpperChar = ls.map pyUpperChar ++ ds := by
    rw [List.map_append, map_upper_digits hb]
  have hl2 : ls.map pyUpperChar ≠ [] := by
    simp [List.map_eq_nil_iff]
    exact hl
  have ha2 : ∀ c ∈ ls.map pyUpperChar, pyIsAlpha c = true := by
    intro c hc
    obtain ⟨c0, hc0, rfl⟩ := List.mem_map.mp hc
    exact pyIsAlpha_upper (ha c0 hc0)
  rw [hmap]
  cases ds with
  | nil =>
    rw [List.append_nil, List.append_nil]
    rw [getCellValue_col_form df _ hl2 ha2, getCellValue_col_form df ls hl ha]
    rw [lettersToIdx_map_up]
    split_ifs
    · rfl
    · simp [Except.mapError, errKind]
  | cons d t =>
    rw [getCellValue_cell_form df _ _ hl2 ha2 (by simp) hb,
      getCellValue_cell_form df ls _ hl ha (by simp) hb]
    rw [lettersToIdx_map_up]
    split_ifs
    · rfl
    · rfl
    · simp [Except.mapError, errKind]

/-- C10: address resolution is case-insensitive — for every address token
(letters, optionally followed by digits) and every dataset, `get_cell_value`
on the uppercased token has the same error class (payload messages quote the
original letters) and resolves to exactly the same cell or column value as
the original-case token, so `a1` and `A1` are interchangeable. -/
theorem c10_case_insensitive (df : DF) (ls ds : List Char)
    (hl : ls ≠ []) (ha : ∀ c ∈ ls, pyIsAlpha c = true)
    (hb : ∀ c ∈ ds, pyIsDigit c = true) :
    (Except.mapError errKind (getCellValue (String.mk ((ls ++ ds).map pyUpperChar)) df) =
      Except.mapError errKind (getCellValue (String.mk (ls ++ ds)) df)) ∧
    (∀ v : Val, getCellValue (String.mk ((ls ++ ds).map pyUpperChar)) df = .ok v ↔
      getCellValue (String.mk (ls ++ ds)) df = .ok v) := by
  have h := getCellValue_upper_eq df ls ds hl ha hb
  exact ⟨h, ok_iff_of_mapErrorEq h⟩

theorem c10_case_insensitive_witness :
    getCellValue "A1" dfOne = .ok (.scalar (.num 1)) ↔
      getCellValue "a1" dfOne = .ok (.scalar (.num 1)) := by
  have h := (c10_case_insensitive dfOne ['a'] ['1'] (by decide) (by decide)
    (by decide)).2 (.scalar (.num 1))
  rw [show String.mk ((['a'] ++ ['1']).map pyUpperChar) = "A1" from rfl] at h
  rw [show String.mk (['a'] ++ ['1']) = "a1" from rfl] at h
  exact h
